import Mathlib

/-!
Verification of the query engine of the smart-note-app repository
(`src/app.js`): filtering (`getFilteredNotes`), sorting (`sortNotes`),
highlighting (`highlightText`, `escapeHtml`, `escapeRegex`) and the
content preview built in `createNoteCard`.

The JavaScript functions are shallowly embedded as Lean functions on
`List Char` / `String`.  JavaScript arrays become `List`, the stable
`Array.prototype.sort` becomes `List.mergeSort`, and the regex-based
replacement in `highlightText` is modelled by an explicit left-to-right
scan, connected to the source's `escapeRegex` via an interpreter for
literal regex patterns.
-/

namespace SmartNotes

/-- A note record as created by `createNote` (src/app.js lines 137-149):
`title` and `content` are strings; `createdAt` / `updatedAt` are modelled
as the millisecond instants that `new Date(x)` yields when `sortNotes`
compares them with `new Date(b.createdAt) - new Date(a.createdAt)`. -/
structure Note where
  id : String
  title : String
  content : String
  createdAt : Nat
  updatedAt : Nat
deriving DecidableEq, Repr

/-- JS `String.prototype.toLowerCase`, character-wise case folding. -/
def jsToLowerCase (s : String) : String :=
  ⟨s.data.map Char.toLower⟩

/-- Contiguous-substring test on character lists: `containsSub hay pat`
is true iff `pat` occurs in `hay` as a contiguous block. -/
def containsSub : List Char → List Char → Bool
  | [], pat => pat.isEmpty
  | hay@(_ :: t), pat => pat.isPrefixOf hay || containsSub t pat

/-- JS `String.prototype.includes`: `hay.includes(pat)` is the contiguous
substring test. -/
def jsIncludes (hay pat : String) : Bool :=
  containsSub hay.data pat.data

/-- JS `String.prototype.trim`: drop whitespace from both ends. -/
def jsTrim (s : String) : String :=
  ⟨((s.data.dropWhile Char.isWhitespace).reverse.dropWhile Char.isWhitespace).reverse⟩

/-- The query normalisation performed by `handleSearch` (src/app.js line
169): `e.target.value.trim().toLowerCase()` is stored as
`this.searchQuery` before the engine runs. -/
def handleSearchQuery (raw : String) : String :=
  jsToLowerCase (jsTrim raw)

/-- The filtering stage of `getFilteredNotes` (src/app.js lines 196-206),
i.e. the part before the final `sortNotes` call: when `searchQuery` is
truthy (non-empty), keep the notes whose lower-cased title or content
includes the query; otherwise pass the collection through unchanged. -/
def filterStage (notes : List Note) (searchQuery : String) : List Note :=
  if searchQuery ≠ "" then
    notes.filter (fun note =>
      let titleMatch := jsIncludes (jsToLowerCase note.title) searchQuery
      let contentMatch := jsIncludes (jsToLowerCase note.content) searchQuery
      titleMatch || contentMatch)
  else
    notes

/-- Comparator of the `dateDesc` branch of `sortNotes`:
`(a, b) => new Date(b.createdAt) - new Date(a.createdAt)` puts `a` before
`b` iff the difference is non-positive, i.e. `b.createdAt ≤ a.createdAt`. -/
def dateDescLe (a b : Note) : Bool :=
  decide (b.createdAt ≤ a.createdAt)

/-- Comparator of the `dateAsc` branch of `sortNotes`. -/
def dateAscLe (a b : Note) : Bool :=
  decide (a.createdAt ≤ b.createdAt)

/-- Comparator of the `titleAsc` branch of `sortNotes`:
`a.title.toLowerCase().localeCompare(b.title.toLowerCase())` is
non-positive iff the folded title of `a` is at most that of `b`. -/
def titleAscLe (a b : Note) : Bool :=
  decide (jsToLowerCase a.title ≤ jsToLowerCase b.title)

/-- Comparator of the `titleDesc` branch of `sortNotes`. -/
def titleDescLe (a b : Note) : Bool :=
  decide (jsToLowerCase b.title ≤ jsToLowerCase a.title)

/-- `sortNotes` (src/app.js lines 210-225): copies the input array and
sorts the copy in place with the comparator selected by `this.sortBy`;
an unrecognised mode returns the unsorted copy.  JS `Array.prototype.sort`
is stable, which `List.mergeSort` models. -/
def sortNotes (sortBy : String) (notes : List Note) : List Note :=
  match sortBy with
  | "dateDesc" => notes.mergeSort dateDescLe
  | "dateAsc" => notes.mergeSort dateAscLe
  | "titleAsc" => notes.mergeSort titleAscLe
  | "titleDesc" => notes.mergeSort titleDescLe
  | _ => notes

/-- `getFilteredNotes` (src/app.js lines 196-208): filter then sort. -/
def getFilteredNotes (sortBy searchQuery : String) (notes : List Note) : List Note :=
  sortNotes sortBy (filterStage notes searchQuery)

/-- The per-character effect of `escapeHtml` (src/app.js lines 238-242):
assigning `div.textContent` and reading back `div.innerHTML` serialises
the text node, which replaces `&`, `<`, `>` and U+00A0 by entities and
leaves every other character (quotes included) unchanged. -/
def escapeHtmlChar (c : Char) : List Char :=
  if c = '&' then "&amp;".data
  else if c = '<' then "&lt;".data
  else if c = '>' then "&gt;".data
  else if c = Char.ofNat 160 then "&nbsp;".data
  else [c]

/-- `escapeHtml` (src/app.js lines 238-242). -/
def escapeHtml (text : String) : String :=
  ⟨text.data.flatMap escapeHtmlChar⟩

/-- The character class of `escapeRegex` (src/app.js line 245):
`/[.*+?^${}()|[\]\\]/g`. -/
def regexMetaChars : List Char :=
  ['.', '*', '+', '?', '^', '$', '\x7b', '\x7d', '(', ')', '|', '[', ']', '\\']

/-- Per-character effect of `escapeRegex`: the replacement `'\\$&'`
prefixes every metacharacter with a backslash. -/
def escapeRegexChar (c : Char) : List Char :=
  if regexMetaChars.contains c then ['\\', c] else [c]

/-- `escapeRegex` (src/app.js lines 244-246). -/
def escapeRegex (str : String) : String :=
  ⟨str.data.flatMap escapeRegexChar⟩

/-- Interpreter for the fragment of JS regex syntax that `highlightText`
can feed to `new RegExp`: patterns made of ordinary characters and of
backslash-escaped metacharacters, both denoting themselves literally.
Any other construct (an unescaped metacharacter, a trailing or
non-metacharacter escape) falls outside the literal fragment and yields
`none`. -/
def parseLiteralPattern : List Char → Option (List Char)
  | [] => some []
  | c :: rest =>
    if c = '\\' then
      match rest with
      | [] => none
      | d :: rest2 =>
        if regexMetaChars.contains d then (parseLiteralPattern rest2).map (d :: ·) else none
    else if regexMetaChars.contains c then none
    else (parseLiteralPattern rest).map (c :: ·)

/-- Case-insensitive prefix test, modelling how a literal pattern under
the `i` flag matches at the head of the input. -/
def ciStartsWith (pat s : List Char) : Bool :=
  (pat.map Char.toLower).isPrefixOf (s.map Char.toLower)

/-- Case-insensitive occurrence test: the literal pattern matches
somewhere in `s` under the `i` flag. -/
def ciOccurs (pat s : List Char) : Bool :=
  containsSub (s.map Char.toLower) (pat.map Char.toLower)

/-- The opening highlight marker inserted by `highlightText`'s
replacement string `'<span class="highlight">$1</span>'`. -/
def openTag : List Char :=
  "<span class=\"highlight\">".data

/-- The closing highlight marker. -/
def closeTag : List Char :=
  "</span>".data

/-- One left-to-right pass of
`escapedText.replace(regex, '<span class="highlight">$1</span>')` for a
case-insensitive literal pattern `pat` (the `g` flag): at each position,
if the pattern matches, the matched slice (`$1`, in its original case) is
wrapped in the markers and scanning resumes after it; otherwise the
character is copied.  `fuel` is a structural-recursion bound kept at least
as large as the remaining input, so the zero-fuel branch is never hit
from `hlScan`. -/
def hlScanAux (pat : List Char) : Nat → List Char → List Char
  | _, [] => []
  | 0, s => s
  | fuel + 1, c :: rest =>
    if !pat.isEmpty && ciStartsWith pat (c :: rest) then
      openTag ++ (c :: rest).take pat.length ++ closeTag ++
        hlScanAux pat fuel (rest.drop (pat.length - 1))
    else
      c :: hlScanAux pat fuel rest

/-- Global case-insensitive literal replacement, wrapping every
non-overlapping match in the highlight markers. -/
def hlScan (pat s : List Char) : List Char :=
  hlScanAux pat s.length s

/-- `highlightText` (src/app.js lines 227-236): an empty (falsy) query
short-circuits to `escapeHtml`; otherwise the text is HTML-escaped, the
query is regex-escaped (only), and
`new RegExp('(' + escapedQuery + ')', 'gi')` drives the global
replacement over the escaped text.  For the patterns `escapeRegex`
produces, the regex denotes a case-insensitive literal occurrence search,
which `parseLiteralPattern` recovers and `hlScan` executes; the `none`
branch is unreachable (`parseLiteralPattern_escapeRegex`). -/
def highlightText (text query : String) : String :=
  if query = "" then
    escapeHtml text
  else
    let escapedText := escapeHtml text
    let escapedQuery := escapeRegex query
    match parseLiteralPattern escapedQuery.data with
    | some pat => ⟨hlScan pat escapedText.data⟩
    | none => escapedText

/-- The truncation performed in `createNoteCard` (src/app.js lines
297-299): contents longer than 200 characters are cut to
`content.substring(0, 200) + '...'` before any highlighting. -/
def previewContent (content : String) : String :=
  if content.length > 200 then ⟨content.data.take 200⟩ ++ "..." else content

/-- The highlighted preview of `createNoteCard` (src/app.js line 302):
`this.highlightText(previewContent, this.searchQuery)` — truncation is
applied before highlighting. -/
def cardHighlightedContent (note : Note) (searchQuery : String) : String :=
  highlightText (previewContent note.content) searchQuery

/-- The entity tails that may legitimately follow a `&` in the output of
`escapeHtml`. -/
def entityTails : List (List Char) :=
  ["amp;".data, "lt;".data, "gt;".data, "nbsp;".data]

/-- Safety predicate on escaped output: no literal `<` or `>` anywhere,
and every `&` is immediately followed by one of the entity tails. -/
def wellEscaped : List Char → Bool
  | [] => true
  | c :: rest =>
    if c = '<' ∨ c = '>' then false
    else if c = '&' then entityTails.any (fun e => e.isPrefixOf rest) && wellEscaped rest
    else wellEscaped rest

/-- Rendering of a highlight decomposition: a sequence of plain segments
and of completely wrapped (open marker, matched text, close marker)
segments.  An output of this shape can never contain an unclosed
highlight marker. -/
def renderChunks : List (Bool × List Char) → List Char
  | [] => []
  | (true, m) :: rest => openTag ++ m ++ closeTag ++ renderChunks rest
  | (false, m) :: rest => m ++ renderChunks rest

/-- The sort key equality of the active mode: identical `createdAt`
instant for the date modes, identical case-folded title for the title
modes; trivial for unrecognised modes (which do not reorder at all). -/
def keyBeq (mode : String) (a b : Note) : Bool :=
  match mode with
  | "dateDesc" => a.createdAt == b.createdAt
  | "dateAsc" => a.createdAt == b.createdAt
  | "titleAsc" => jsToLowerCase a.title == jsToLowerCase b.title
  | "titleDesc" => jsToLowerCase a.title == jsToLowerCase b.title
  | _ => true

/-- Modelled from the spec (§4.3), not from src/app.js: the highlighter
the specification prescribes, in which "the query itself must be escaped
using the same rule as the text, and the search must be performed on the
escaped text using the escaped query".  Used only to compare against the
source's `highlightText`, which escapes the query with `escapeRegex`
alone. -/
def specHighlightText (text query : String) : String :=
  if query = "" then
    escapeHtml text
  else
    ⟨hlScan (escapeHtml query).data (escapeHtml text).data⟩

/-! ### Raw-value model for malformed notes (claim C3)

`getFilteredNotes` runs string operations directly on `note.title` /
`note.content`.  To observe what happens when those fields are not
strings, the filter stage is re-embedded over untyped JS values, with
fallible operations in `Except`. -/

/-- An untyped JS field value: a string, or some non-string value. -/
inductive JsVal where
  | str (s : String)
  | num (n : Int)
deriving DecidableEq, Repr

/-- The exceptions relevant at this boundary: the `TypeError` that JS
throws when calling `.toLowerCase()` on a non-string, and the
`MalformedNoteError` the specification prescribes (which no code in
src/app.js ever constructs). -/
inductive JsError where
  | typeError
  | malformedNote
deriving DecidableEq, Repr

/-- Is the value a string? -/
def JsVal.isString : JsVal → Bool
  | .str _ => true
  | _ => false

/-- `v.toLowerCase()` on an untyped value: defined for strings, a thrown
`TypeError` otherwise (numbers have no `toLowerCase` method). -/
def jsToLowerCaseV : JsVal → Except JsError String
  | .str s => .ok (jsToLowerCase s)
  | _ => .error .typeError

/-- A note as it arrives from `JSON.parse` of localStorage: every field
is an untyped value. -/
structure RawNote where
  id : JsVal
  title : JsVal
  content : JsVal
  createdAt : JsVal
  updatedAt : JsVal
deriving DecidableEq, Repr

/-- The filter callback of `getFilteredNotes` (src/app.js lines 200-204)
over untyped fields: both `titleMatch` and `contentMatch` are computed
(throwing `TypeError` on a non-string field) before the disjunction. -/
def filterPredRaw (searchQuery : String) (note : RawNote) : Except JsError Bool := do
  let titleLower ← jsToLowerCaseV note.title
  let contentLower ← jsToLowerCaseV note.content
  return jsIncludes titleLower searchQuery || jsIncludes contentLower searchQuery

/-- Left-to-right traversal of `Array.prototype.filter` with a throwing
callback: the first exception aborts the whole call. -/
def filterStageRawGo (searchQuery : String) : List RawNote → Except JsError (List RawNote)
  | [] => .ok []
  | note :: rest => do
    let keep ← filterPredRaw searchQuery note
    let tail ← filterStageRawGo searchQuery rest
    return if keep then note :: tail else tail

/-- The filtering stage of `getFilteredNotes` over untyped fields: with a
falsy (empty) query the callback — and hence any field access — never
runs. -/
def filterStageRaw (notes : List RawNote) (searchQuery : String) :
    Except JsError (List RawNote) :=
  if searchQuery ≠ "" then filterStageRawGo searchQuery notes else .ok notes

/-! ### Reference-heap model for the frame claims (claim C9)

JS arrays are mutable references.  A heap maps references (indices) to
note arrays; `[...notes]` allocates, `sorted.sort(...)` writes the sorted
contents back through the fresh reference. -/

/-- A heap of JS note arrays; a reference is an index into `arrays`. -/
structure Heap where
  arrays : List (List Note)
deriving Repr

/-- Dereference. -/
def Heap.read (h : Heap) (r : Nat) : List Note :=
  h.arrays.getD r []

/-- Allocate a fresh array, returning the new heap and the fresh
reference. -/
def Heap.alloc (h : Heap) (xs : List Note) : Heap × Nat :=
  (⟨h.arrays ++ [xs]⟩, h.arrays.length)

/-- Overwrite the contents of an existing array in place. -/
def Heap.write (h : Heap) (r : Nat) (xs : List Note) : Heap :=
  ⟨h.arrays.set r xs⟩

/-- `sortNotes` on the heap (src/app.js lines 210-225):
`const sorted = [...notes]` allocates a fresh copy, each `case` sorts the
copy in place, the fresh reference is returned. -/
def sortNotesST (h : Heap) (r : Nat) (sortBy : String) : Heap × Nat :=
  let spread := h.alloc (h.read r)
  let h1 := spread.1
  let s := spread.2
  match sortBy with
  | "dateDesc" => (h1.write s ((h1.read s).mergeSort dateDescLe), s)
  | "dateAsc" => (h1.write s ((h1.read s).mergeSort dateAscLe), s)
  | "titleAsc" => (h1.write s ((h1.read s).mergeSort titleAscLe), s)
  | "titleDesc" => (h1.write s ((h1.read s).mergeSort titleDescLe), s)
  | _ => (h1, s)

/-- `getFilteredNotes` on the heap (src/app.js lines 196-208):
`let filtered = this.notes` aliases the source array; a truthy query
replaces the alias by the fresh array `Array.prototype.filter` returns;
either way the result is passed to `sortNotes`, which copies before
sorting. -/
def getFilteredNotesST (h : Heap) (r : Nat) (searchQuery sortBy : String) : Heap × Nat :=
  if searchQuery ≠ "" then
    let fa := h.alloc ((h.read r).filter (fun note =>
      jsIncludes (jsToLowerCase note.title) searchQuery ||
        jsIncludes (jsToLowerCase note.content) searchQuery))
    sortNotesST fa.1 fa.2 sortBy
  else
    sortNotesST h r sortBy

/-! ### Concrete fixtures used by witnesses and counterexamples -/

/-- A 252-character content whose only occurrence of `"zq"` starts at
position 250, past the 200-character preview boundary. -/
def longContent : String :=
  ⟨List.replicate 250 'a'⟩ ++ "zq"

/-- A note with `longContent` as content. -/
def longNote : Note :=
  ⟨"id1", "title", longContent, 1, 1⟩

/-- A raw note whose `title` is the number `42`, not a string. -/
def badRawNote : RawNote :=
  ⟨.str "id2", .num 42, .str "some content", .str "t", .str "t"⟩

/-- Three notes with pairwise distinct case-folded titles. -/
def distinctTitleNotes : List Note :=
  [⟨"1", "b", "x", 1, 1⟩, ⟨"2", "A", "y", 2, 2⟩, ⟨"3", "c", "z", 3, 3⟩]

/-- A one-array heap for the frame witness. -/
def heap0 : Heap :=
  ⟨[[⟨"1", "b", "x", 1, 1⟩, ⟨"2", "A", "y", 2, 2⟩]]⟩

/-! ## Helper lemmas -/

theorem containsSub_iff (hay pat : List Char) : containsSub hay pat = true ↔ pat <:+: hay := by
  induction hay with
  | nil => simp [containsSub]
  | cons c t ih => simp [containsSub, ih, List.infix_cons_iff]

theorem jsIncludes_iff (hay pat : String) : jsIncludes hay pat = true ↔ pat.data <:+: hay.data :=
  containsSub_iff hay.data pat.data

theorem jsToLowerCase_eq_empty_iff (s : String) : jsToLowerCase s = "" ↔ s = "" := by
  cases s with
  | mk d =>
    cases d with
    | nil => constructor <;> (intro h; rfl)
    | cons c t =>
      constructor
      · intro h
        exact absurd (congrArg String.data h) (by simp [jsToLowerCase])
      · intro h
        exact absurd (congrArg String.data h) (by simp)

theorem parseLiteralPattern_flatMap (l : List Char) :
    parseLiteralPattern (l.flatMap escapeRegexChar) = some l := by
  induction l with
  | nil => simp [parseLiteralPattern]
  | cons c rest ih =>
    rw [List.flatMap_cons]
    by_cases hc : c ∈ regexMetaChars
    · have he : escapeRegexChar c ++ rest.flatMap escapeRegexChar =
          '\\' :: c :: rest.flatMap escapeRegexChar := by
        simp [escapeRegexChar, hc]
      rw [he, parseLiteralPattern.eq_def]
      dsimp only
      rw [if_pos rfl]
      simp [hc, ih]
    · have he : escapeRegexChar c ++ rest.flatMap escapeRegexChar =
          c :: rest.flatMap escapeRegexChar := by
        simp [escapeRegexChar, hc]
      have hne : c ≠ '\\' := fun h => hc (by rw [h]; decide)
      rw [he, parseLiteralPattern.eq_def]
      dsimp only
      rw [if_neg hne]
      simp [hc, ih]

theorem escapeRegex_data (q : String) :
    (escapeRegex q).data = q.data.flatMap escapeRegexChar := rfl

theorem parseLiteralPattern_escapeRegex (q : String) :
    parseLiteralPattern (escapeRegex q).data = some q.data := by
  rw [escapeRegex_data]; exact parseLiteralPattern_flatMap q.data

theorem wellEscaped_escapeHtmlChar (c : Char) (rest : List Char)
    (h : wellEscaped rest = true) : wellEscaped (escapeHtmlChar c ++ rest) = true := by
  by_cases h1 : c = '&'
  · subst h1
    simp [escapeHtmlChar, wellEscaped, entityTails, List.isPrefixOf, h]
  · by_cases h2 : c = '<'
    · subst h2
      simp [escapeHtmlChar, wellEscaped, entityTails, List.isPrefixOf, h]
    · by_cases h3 : c = '>'
      · subst h3
        simp [escapeHtmlChar, wellEscaped, entityTails, List.isPrefixOf, h]
      · by_cases h4 : c = Char.ofNat 160
        · subst h4
          simp [escapeHtmlChar, wellEscaped, entityTails, List.isPrefixOf, h]
        · have h5 : c ≠ '>' := h3
          simp [escapeHtmlChar, wellEscaped, h1, h2, h3, h4, h]

theorem wellEscaped_escapeHtml (text : String) :
    wellEscaped (escapeHtml text).data = true := by
  show wellEscaped (text.data.flatMap escapeHtmlChar) = true
  induction text.data with
  | nil => rfl
  | cons c t ih =>
    rw [List.flatMap_cons]
    exact wellEscaped_escapeHtmlChar c _ ih

theorem not_mem_lt_of_wellEscaped {s : List Char} (h : wellEscaped s = true) : '<' ∉ s := by
  induction s with
  | nil => simp
  | cons c t ih =>
    intro hmem
    rcases List.mem_cons.mp hmem with h1 | h1
    · subst h1
      simp [wellEscaped] at h
    · by_cases hc : c = '<' ∨ c = '>'
      · simp [wellEscaped, hc] at h
      · by_cases hc2 : c = '&'
        · subst hc2
          simp [wellEscaped] at h
          exact ih h.2 h1
        · rw [wellEscaped] at h
          rw [if_neg hc, if_neg hc2] at h
          exact ih h h1

theorem not_mem_gt_of_wellEscaped {s : List Char} (h : wellEscaped s = true) : '>' ∉ s := by
  induction s with
  | nil => simp
  | cons c t ih =>
    intro hmem
    rcases List.mem_cons.mp hmem with h1 | h1
    · subst h1
      simp [wellEscaped] at h
    · by_cases hc : c = '<' ∨ c = '>'
      · simp [wellEscaped, hc] at h
      · by_cases hc2 : c = '&'
        · subst hc2
          simp [wellEscaped] at h
          exact ih h.2 h1
        · rw [wellEscaped] at h
          rw [if_neg hc, if_neg hc2] at h
          exact ih h h1

theorem ciOccurs_cons (pat : List Char) (c : Char) (rest : List Char) :
    ciOccurs pat (c :: rest) = (ciStartsWith pat (c :: rest) || ciOccurs pat rest) := by
  simp only [ciOccurs, ciStartsWith, List.map_cons, containsSub]

theorem hlScanAux_of_not_occurs (pat : List Char) :
    ∀ (fuel : Nat) (s : List Char), ciOccurs pat s = false → hlScanAux pat fuel s = s := by
  intro fuel
  induction fuel with
  | zero => intro s h; cases s <;> rfl
  | succ n ih =>
    intro s h
    cases s with
    | nil => rfl
    | cons c rest =>
      rw [ciOccurs_cons] at h
      have h1 : ciStartsWith pat (c :: rest) = false := by
        cases hcs : ciStartsWith pat (c :: rest) <;> simp [hcs] at h ⊢
      have h2 : ciOccurs pat rest = false := by
        cases hco : ciOccurs pat rest <;> simp [hco] at h ⊢
      rw [hlScanAux]
      rw [h1]
      simp [ih rest h2]

theorem hlScan_of_not_occurs (pat s : List Char) (h : ciOccurs pat s = false) :
    hlScan pat s = s :=
  hlScanAux_of_not_occurs pat s.length s h

theorem hlScanAux_chunks (pat : List Char) :
    ∀ (fuel : Nat) (s : List Char), ∃ chunks,
      hlScanAux pat fuel s = renderChunks chunks ∧
        ∀ p ∈ chunks, ∀ ch ∈ p.2, ch ∈ s := by
  intro fuel
  induction fuel with
  | zero =>
    intro s
    cases s with
    | nil => exact ⟨[], rfl, by simp⟩
    | cons c rest =>
      refine ⟨[(false, c :: rest)], by simp [hlScanAux, renderChunks], ?_⟩
      simp
  | succ n ih =>
    intro s
    cases s with
    | nil => exact ⟨[], rfl, by simp⟩
    | cons c rest =>
      by_cases hm : (!pat.isEmpty && ciStartsWith pat (c :: rest)) = true
      · obtain ⟨chunks, heq, hmem⟩ := ih (rest.drop (pat.length - 1))
        refine ⟨(true, (c :: rest).take pat.length) :: chunks, ?_, ?_⟩
        · rw [hlScanAux, hm, heq]
          simp [renderChunks]
        · intro p hp ch hch
          rcases List.mem_cons.mp hp with h1 | h1
          · subst h1
            exact List.mem_of_mem_take hch
          · exact List.mem_cons_of_mem c (List.mem_of_mem_drop (hmem p h1 ch hch))
      · obtain ⟨chunks, heq, hmem⟩ := ih rest
        refine ⟨(false, [c]) :: chunks, ?_, ?_⟩
        · rw [hlScanAux, Bool.of_not_eq_true hm, heq]
          simp [renderChunks]
        · intro p hp ch hch
          rcases List.mem_cons.mp hp with h1 | h1
          · subst h1
            simp at hch
            simp [hch]
          · exact List.mem_cons_of_mem c (hmem p h1 ch hch)

theorem hlScan_chunks (pat s : List Char) :
    ∃ chunks, hlScan pat s = renderChunks chunks ∧ ∀ p ∈ chunks, ∀ ch ∈ p.2, ch ∈ s :=
  hlScanAux_chunks pat s.length s

theorem highlightText_of_ne (text q : String) (hq : q ≠ "") :
    highlightText text q = ⟨hlScan q.data (escapeHtml text).data⟩ := by
  rw [highlightText, if_neg hq]
  simp only [parseLiteralPattern_escapeRegex]

theorem sortNotes_dateDesc (notes : List Note) :
    sortNotes "dateDesc" notes = notes.mergeSort dateDescLe := rfl

theorem sortNotes_dateAsc (notes : List Note) :
    sortNotes "dateAsc" notes = notes.mergeSort dateAscLe := rfl

theorem sortNotes_titleAsc (notes : List Note) :
    sortNotes "titleAsc" notes = notes.mergeSort titleAscLe := rfl

theorem sortNotes_titleDesc (notes : List Note) :
    sortNotes "titleDesc" notes = notes.mergeSort titleDescLe := rfl

theorem sortNotes_default (mode : String) (notes : List Note)
    (h1 : mode ≠ "dateDesc") (h2 : mode ≠ "dateAsc")
    (h3 : mode ≠ "titleAsc") (h4 : mode ≠ "titleDesc") :
    sortNotes mode notes = notes := by
  unfold sortNotes
  split <;> simp_all

theorem dateDescLe_trans : ∀ a b c : Note, dateDescLe a b → dateDescLe b c → dateDescLe a c := by
  intro a b c h1 h2
  simp [dateDescLe] at h1 h2 ⊢
  omega

theorem dateDescLe_total : ∀ a b : Note, dateDescLe a b || dateDescLe b a := by
  intro a b
  simp [dateDescLe]
  omega

theorem dateAscLe_trans : ∀ a b c : Note, dateAscLe a b → dateAscLe b c → dateAscLe a c := by
  intro a b c h1 h2
  simp [dateAscLe] at h1 h2 ⊢
  omega

theorem dateAscLe_total : ∀ a b : Note, dateAscLe a b || dateAscLe b a := by
  intro a b
  simp [dateAscLe]
  omega

theorem titleAscLe_trans : ∀ a b c : Note, titleAscLe a b → titleAscLe b c → titleAscLe a c := by
  intro a b c h1 h2
  simp [titleAscLe] at h1 h2 ⊢
  exact le_trans h1 h2

theorem titleAscLe_total : ∀ a b : Note, titleAscLe a b || titleAscLe b a := by
  intro a b
  simp [titleAscLe]
  exact le_total _ _

theorem titleDescLe_trans : ∀ a b c : Note, titleDescLe a b → titleDescLe b c → titleDescLe a c := by
  intro a b c h1 h2
  simp [titleDescLe] at h1 h2 ⊢
  exact le_trans h2 h1

theorem titleDescLe_total : ∀ a b : Note, titleDescLe a b || titleDescLe b a := by
  intro a b
  simp [titleDescLe]
  exact le_total _ _

theorem mergeSort_filter_stable {le : Note → Note → Bool}
    (htrans : ∀ a b c : Note, le a b → le b c → le a c)
    (htotal : ∀ a b : Note, le a b || le b a)
    (p : Note → Bool) (hp : ∀ a b : Note, p a = true → p b = true → le a b = true)
    (l : List Note) :
    (l.mergeSort le).filter p = l.filter p := by
  have hpair : (l.filter p).Pairwise (fun a b => le a b = true) := by
    apply List.pairwise_of_forall_mem_list
    intro a ha b hb
    exact hp a b (List.of_mem_filter ha) (List.of_mem_filter hb)
  have hsub : List.Sublist (l.filter p) (l.mergeSort le) :=
    List.sublist_mergeSort htrans htotal hpair (List.filter_sublist l)
  have hself : (l.filter p).filter p = l.filter p :=
    List.filter_eq_self.mpr fun a ha => List.of_mem_filter ha
  have hsub2 : List.Sublist (l.filter p) ((l.mergeSort le).filter p) := by
    have := hsub.filter p
    rwa [hself] at this
  have hlen : ((l.mergeSort le).filter p).length = (l.filter p).length :=
    ((List.mergeSort_perm l le).filter p).length_eq
  exact (hsub2.eq_of_length hlen.symm).symm

theorem Heap.read_alloc_old (h : Heap) (xs : List Note) {r : Nat}
    (hr : r < h.arrays.length) : (h.alloc xs).1.read r = h.read r := by
  simp [Heap.alloc, Heap.read, List.getElem?_append_left hr]

theorem Heap.alloc_ref (h : Heap) (xs : List Note) :
    (h.alloc xs).2 = h.arrays.length := rfl

theorem Heap.read_alloc_new (h : Heap) (xs : List Note) :
    (h.alloc xs).1.read h.arrays.length = xs := by
  simp [Heap.alloc, Heap.read, List.getElem?_append_right (Nat.le_refl _)]

theorem Heap.alloc_arrays_length (h : Heap) (xs : List Note) :
    (h.alloc xs).1.arrays.length = h.arrays.length + 1 := by
  simp [Heap.alloc]

theorem Heap.read_write_self (h : Heap) {s : Nat} (xs : List Note)
    (hs : s < h.arrays.length) : (h.write s xs).read s = xs := by
  simp [Heap.write, Heap.read, List.getElem?_set_self hs]

theorem Heap.read_write_ne (h : Heap) {r s : Nat} (xs : List Note)
    (hne : s ≠ r) : (h.write s xs).read r = h.read r := by
  simp [Heap.write, Heap.read, List.getElem?_set_ne hne]

theorem sortNotesST_ref (h : Heap) (r : Nat) (mode : String) :
    (sortNotesST h r mode).2 = h.arrays.length := by
  unfold sortNotesST
  split <;> rfl

theorem sortNotesST_frame (h : Heap) (r : Nat) {r2 : Nat} (mode : String)
    (hr2 : r2 < h.arrays.length) :
    (sortNotesST h r mode).1.read r2 = h.read r2 := by
  have hne : h.arrays.length ≠ r2 := Nat.ne_of_gt hr2
  unfold sortNotesST
  split <;>
    simp [Heap.alloc_ref, Heap.read_write_ne _ _ hne, Heap.read_alloc_old _ _ hr2]

theorem sortNotesST_result (h : Heap) (r : Nat) (mode : String) :
    (sortNotesST h r mode).1.read (sortNotesST h r mode).2 =
      sortNotes mode (h.read r) := by
  have hlt : h.arrays.length < (h.alloc (h.read r)).1.arrays.length := by
    rw [Heap.alloc_arrays_length]; omega
  rw [sortNotesST_ref]
  unfold sortNotesST
  split <;>
    simp_all [Heap.alloc_ref, Heap.read_write_self _ _ hlt, Heap.read_alloc_new,
      sortNotes_dateDesc, sortNotes_dateAsc, sortNotes_titleAsc, sortNotes_titleDesc,
      sortNotes_default]

theorem getFilteredNotesST_frame (h : Heap) (r : Nat) {r2 : Nat} (q mode : String)
    (hr2 : r2 < h.arrays.length) :
    (getFilteredNotesST h r q mode).1.read r2 = h.read r2 := by
  unfold getFilteredNotesST
  split
  · dsimp only
    have hr3 : r2 < (h.alloc ((h.read r).filter (fun note =>
        jsIncludes (jsToLowerCase note.title) q ||
          jsIncludes (jsToLowerCase note.content) q))).1.arrays.length := by
      rw [Heap.alloc_arrays_length]; omega
    rw [sortNotesST_frame _ _ _ hr3, Heap.read_alloc_old _ _ hr2]
  · exact sortNotesST_frame h r mode hr2

theorem getFilteredNotesST_ref (h : Heap) (r : Nat) (q mode : String) :
    h.arrays.length ≤ (getFilteredNotesST h r q mode).2 := by
  unfold getFilteredNotesST
  split
  · dsimp only
    rw [sortNotesST_ref, Heap.alloc_arrays_length]
    omega
  · rw [sortNotesST_ref]

theorem getFilteredNotesST_result (h : Heap) (r : Nat) (q mode : String) :
    (getFilteredNotesST h r q mode).1.read (getFilteredNotesST h r q mode).2 =
      getFilteredNotes mode q (h.read r) := by
  unfold getFilteredNotesST
  split
  · rename_i hq
    dsimp only
    rw [sortNotesST_result, Heap.alloc_ref, Heap.read_alloc_new]
    show sortNotes mode _ = sortNotes mode (filterStage (h.read r) q)
    rw [filterStage, if_pos hq]
  · rename_i hq
    have hq2 : q = "" := not_not.mp hq
    subst hq2
    rw [sortNotesST_result]
    rfl

theorem filterPredRaw_error (q : String) (note : RawNote)
    (hbad : note.title.isString = false ∨ note.content.isString = false) :
    filterPredRaw q note = .error .typeError := by
  obtain ⟨i, t, c, ca, u⟩ := note
  cases t with
  | str s =>
    cases c with
    | str s2 => simp [JsVal.isString] at hbad
    | num m => rfl
  | num n => rfl

theorem filterPredRaw_ok (q : String) (note : RawNote)
    (ht : note.title.isString = true) (hc : note.content.isString = true) :
    ∃ b, filterPredRaw q note = .ok b := by
  obtain ⟨i, t, c, ca, u⟩ := note
  cases t with
  | str s =>
    cases c with
    | str s2 => exact ⟨_, rfl⟩
    | num m => simp [JsVal.isString] at hc
  | num n => simp [JsVal.isString] at ht

theorem filterStageRawGo_error (q : String) :
    ∀ notes : List RawNote,
      (∃ n ∈ notes, n.title.isString = false ∨ n.content.isString = false) →
      filterStageRawGo q notes = .error .typeError := by
  intro notes
  induction notes with
  | nil =>
    rintro ⟨n, hn, _⟩
    cases hn
  | cons head rest ih =>
    rintro ⟨n, hn, hbad⟩
    rcases List.mem_cons.mp hn with h1 | h1
    · subst h1
      unfold filterStageRawGo
      rw [filterPredRaw_error q n hbad]
      rfl
    · by_cases hh : head.title.isString = false ∨ head.content.isString = false
      · unfold filterStageRawGo
        rw [filterPredRaw_error q head hh]
        rfl
      · push_neg at hh
        have ht : head.title.isString = true := by simpa using hh.1
        have hc : head.content.isString = true := by simpa using hh.2
        obtain ⟨b, hb⟩ := filterPredRaw_ok q head ht hc
        unfold filterStageRawGo
        rw [hb]
        show filterStageRawGo q rest >>= _ = _
        rw [ih ⟨n, h1, hbad⟩]
        rfl

/-! ## Claim theorems -/

/-- C1: the claim states that `highlightText` escapes the query with the
same HTML-escaping rule as the text and searches the escaped text with
the escaped query, so that a query containing `<` or `&` still matches.
The source escapes the query with `escapeRegex` only, never with
`escapeHtml`: against text `"a<b"` the query `"<"` occurs in the raw text
but the search runs the raw query over the escaped text `"a&lt;b"`, finds
nothing, and emits no highlight marker, whereas the spec-modelled
highlighter (which HTML-escapes the query) does mark the match; moreover
the query `"lt"` matches inside the `&lt;` entity and splits it,
producing broken markup. -/
theorem highlight_query_not_html_escaped :
    highlightText "a<b" "<" = "a&lt;b" ∧
    ciOccurs "<".data "a<b".data = true ∧
    containsSub (highlightText "a<b" "<").data openTag = false ∧
    containsSub (specHighlightText "a<b" "<").data openTag = true ∧
    highlightText "<" "lt" = "&<span class=\"highlight\">lt</span>;" := by
  decide

/-- C2 (amended): `highlightText text ""` returns `text` with `&`, `<`,
`>` (and U+00A0) escaped to their entity equivalents, and the result
contains no literal `<` or `>` and no `&` except at the start of an
entity; quote characters, however, are not replaced. -/
theorem highlight_empty_query_escapes (text : String) :
    highlightText text "" = escapeHtml text ∧
    wellEscaped (escapeHtml text).data = true :=
  ⟨rfl, wellEscaped_escapeHtml text⟩

/-- C2 counterexample: the claim says quote characters are replaced by
their entity equivalents; on the one-character text `"` the output of
`highlightText` with an empty query keeps the quote as literal text. -/
theorem highlight_empty_query_quote_counterexample :
    highlightText "\"" "" = "\"" ∧ '"' ∈ ("\"" : String).data := by
  decide

/-- C7: `highlightText` treats the query as literal text: the pattern
built from `escapeRegex q` denotes exactly the characters of `q` (for
every query `q`), the query `"."` against `"a.b"` highlights only the
literal dot, and the query `"a+b"` against `"a+b test"` highlights
exactly the substring `"a+b"`. -/
theorem highlight_treats_query_literally :
    (∀ q : String, parseLiteralPattern (escapeRegex q).data = some q.data) ∧
    highlightText "a.b" "." = "a<span class=\"highlight\">.</span>b" ∧
    highlightText "a+b test" "a+b" = "<span class=\"highlight\">a+b</span> test" :=
  ⟨parseLiteralPattern_escapeRegex, by decide, by decide⟩

/-- C10: for any sort-mode string other than the four recognised modes,
`sortNotes` returns the input sequence unchanged (the unsorted copy of
the `default` branch). -/
theorem sortNotes_unknown_mode (mode : String) (notes : List Note)
    (h1 : mode ≠ "dateDesc") (h2 : mode ≠ "dateAsc")
    (h3 : mode ≠ "titleAsc") (h4 : mode ≠ "titleDesc") :
    sortNotes mode notes = notes :=
  sortNotes_default mode notes h1 h2 h3 h4

/-- Witness for C10 at the concrete unknown mode `"random"`. -/
theorem sortNotes_unknown_mode_witness :
    (("random" : String) ≠ "dateDesc" ∧ ("random" : String) ≠ "dateAsc" ∧
      ("random" : String) ≠ "titleAsc" ∧ ("random" : String) ≠ "titleDesc") ∧
    sortNotes "random" distinctTitleNotes = distinctTitleNotes :=
  ⟨by decide, sortNotes_unknown_mode "random" distinctTitleNotes
    (by decide) (by decide) (by decide) (by decide)⟩

/-- C3 (amended): the engine has no entry guard and no
`MalformedNoteError`: with a non-empty query, a collection containing a
note whose `title` or `content` is not a string makes the filter stage
throw the `TypeError` raised by `toLowerCase` inside the filter callback,
mid-computation; with an empty query the malformed note passes through
completely unchecked. -/
theorem malformed_note_typeError :
    (∀ (notes : List RawNote) (q : String), q ≠ "" →
      (∃ n ∈ notes, n.title.isString = false ∨ n.content.isString = false) →
      filterStageRaw notes q = .error .typeError) ∧
    (∀ notes : List RawNote, filterStageRaw notes "" = .ok notes) := by
  constructor
  · intro notes q hq hbad
    rw [filterStageRaw, if_pos hq]
    exact filterStageRawGo_error q notes hbad
  · intro notes
    rfl

/-- Witness for C3 (amended) on the concrete malformed note. -/
theorem malformed_note_typeError_witness :
    (("content" : String) ≠ "" ∧
      (∃ n ∈ [badRawNote], n.title.isString = false ∨ n.content.isString = false)) ∧
    filterStageRaw [badRawNote] "content" = .error .typeError :=
  ⟨⟨by decide, by decide⟩,
    malformed_note_typeError.1 [badRawNote] "content" (by decide) (by decide)⟩

/-- C3 counterexample: the claim says the engine fails fast with a
`MalformedNoteError` raised by a guard at entry; on a note whose title is
the number `42` the filter stage instead surfaces a `TypeError` from the
string operation, and with an empty query it performs no check at all. -/
theorem malformed_note_counterexample :
    filterStageRaw [badRawNote] "content" = .error .typeError ∧
    JsError.typeError ≠ JsError.malformedNote ∧
    filterStageRaw [badRawNote] "" = .ok [badRawNote] := by
  refine ⟨rfl, by decide, rfl⟩

/-- C4: a note belongs to the filter stage's output iff it belongs to
the input and the trimmed query is empty, or the case-folded title or
case-folded content contains the case-folded query as a contiguous
substring; an empty (trimmed) query leaves the sequence untouched, in
its original order. -/
theorem filter_membership (notes : List Note) (rawQuery : String) (n : Note) :
    (n ∈ filterStage notes (handleSearchQuery rawQuery) ↔
      n ∈ notes ∧ (jsTrim rawQuery = "" ∨
        (jsToLowerCase (jsTrim rawQuery)).data <:+: (jsToLowerCase n.title).data ∨
        (jsToLowerCase (jsTrim rawQuery)).data <:+: (jsToLowerCase n.content).data)) ∧
    (jsTrim rawQuery = "" → filterStage notes (handleSearchQuery rawQuery) = notes) ∧
    filterStage notes "" = notes := by
  by_cases ht : jsTrim rawQuery = ""
  · have hq : handleSearchQuery rawQuery = "" := by
      rw [handleSearchQuery, ht]
      exact (jsToLowerCase_eq_empty_iff "").mpr rfl
    rw [hq]
    refine ⟨?_, fun _ => by simp [filterStage], by simp [filterStage]⟩
    simp [filterStage, ht]
  · have hq : handleSearchQuery rawQuery ≠ "" := by
      rw [handleSearchQuery]
      intro hcon
      exact ht ((jsToLowerCase_eq_empty_iff (jsTrim rawQuery)).mp hcon)
    refine ⟨?_, fun hcon => absurd hcon ht, by simp [filterStage]⟩
    rw [filterStage, if_pos hq, List.mem_filter]
    simp only [ht, false_or]
    apply and_congr_right
    intro _
    show (jsIncludes (jsToLowerCase n.title) (handleSearchQuery rawQuery) ||
        jsIncludes (jsToLowerCase n.content) (handleSearchQuery rawQuery)) = true ↔ _
    rw [Bool.or_eq_true, jsIncludes_iff, jsIncludes_iff]
    exact Iff.rfl

/-- Witness for C4 at a concrete collection and query (the implication
for the empty-after-trimming case instantiated at query `"  "`). -/
theorem filter_membership_witness :
    (jsTrim "  " = "" ∧
      filterStage distinctTitleNotes (handleSearchQuery "  ") = distinctTitleNotes) ∧
    ((⟨"1", "b", "x", 1, 1⟩ : Note) ∈ filterStage distinctTitleNotes (handleSearchQuery "B") ↔
      (⟨"1", "b", "x", 1, 1⟩ : Note) ∈ distinctTitleNotes ∧ (jsTrim "B" = "" ∨
        (jsToLowerCase (jsTrim "B")).data <:+:
          (jsToLowerCase (⟨"1", "b", "x", 1, 1⟩ : Note).title).data ∨
        (jsToLowerCase (jsTrim "B")).data <:+:
          (jsToLowerCase (⟨"1", "b", "x", 1, 1⟩ : Note).content).data)) :=
  ⟨⟨by decide, (filter_membership distinctTitleNotes "  " ⟨"1", "b", "x", 1, 1⟩).2.1 (by decide)⟩,
    (filter_membership distinctTitleNotes "B" ⟨"1", "b", "x", 1, 1⟩).1⟩

theorem keyBeq_dateDesc (a b : Note) :
    keyBeq "dateDesc" a b = (a.createdAt == b.createdAt) := rfl

theorem keyBeq_dateAsc (a b : Note) :
    keyBeq "dateAsc" a b = (a.createdAt == b.createdAt) := rfl

theorem keyBeq_titleAsc (a b : Note) :
    keyBeq "titleAsc" a b = (jsToLowerCase a.title == jsToLowerCase b.title) := rfl

theorem keyBeq_titleDesc (a b : Note) :
    keyBeq "titleDesc" a b = (jsToLowerCase a.title == jsToLowerCase b.title) := rfl

/-- C5: every `sortNotes` mode is stable: the notes whose active sort key
(creation instant for the date modes, case-folded title for the title
modes) equals that of any reference note `n0` appear in the output in
exactly the relative order they had in the input. -/
theorem sortNotes_stable (mode : String) (notes : List Note) (n0 : Note) :
    (sortNotes mode notes).filter (fun n => keyBeq mode n n0) =
      notes.filter (fun n => keyBeq mode n n0) := by
  by_cases h1 : mode = "dateDesc"
  · subst h1
    rw [sortNotes_dateDesc]
    apply mergeSort_filter_stable dateDescLe_trans dateDescLe_total
    intro a b ha hb
    rw [keyBeq_dateDesc] at ha hb
    have ha2 : a.createdAt = n0.createdAt := eq_of_beq ha
    have hb2 : b.createdAt = n0.createdAt := eq_of_beq hb
    simp [dateDescLe, ha2, hb2]
  by_cases h2 : mode = "dateAsc"
  · subst h2
    rw [sortNotes_dateAsc]
    apply mergeSort_filter_stable dateAscLe_trans dateAscLe_total
    intro a b ha hb
    rw [keyBeq_dateAsc] at ha hb
    have ha2 : a.createdAt = n0.createdAt := eq_of_beq ha
    have hb2 : b.createdAt = n0.createdAt := eq_of_beq hb
    simp [dateAscLe, ha2, hb2]
  by_cases h3 : mode = "titleAsc"
  · subst h3
    rw [sortNotes_titleAsc]
    apply mergeSort_filter_stable titleAscLe_trans titleAscLe_total
    intro a b ha hb
    rw [keyBeq_titleAsc] at ha hb
    have ha2 : jsToLowerCase a.title = jsToLowerCase n0.title := eq_of_beq ha
    have hb2 : jsToLowerCase b.title = jsToLowerCase n0.title := eq_of_beq hb
    simp [titleAscLe, ha2, hb2]
  by_cases h4 : mode = "titleDesc"
  · subst h4
    rw [sortNotes_titleDesc]
    apply mergeSort_filter_stable titleDescLe_trans titleDescLe_total
    intro a b ha hb
    rw [keyBeq_titleDesc] at ha hb
    have ha2 : jsToLowerCase a.title = jsToLowerCase n0.title := eq_of_beq ha
    have hb2 : jsToLowerCase b.title = jsToLowerCase n0.title := eq_of_beq hb
    simp [titleDescLe, ha2, hb2]
  rw [sortNotes_default mode notes h1 h2 h3 h4]

/-- C6: for content longer than 200 characters the preview is the first
200 characters plus an ellipsis, computed before highlighting; if the
query does not occur (case-insensitively) in the escaped truncated
preview — e.g. a match that starts at position 250 of the content — the
highlighted preview is exactly the escaped truncated preview, with no
highlight marker in it; and the output always decomposes into plain
segments and completely wrapped marker pairs whose segment texts contain
no `<` or `>` at all, so every marker character of the output belongs to
a complete open/close pair and truncation never leaves a marker
unclosed (a lone `openTag` admits no such decomposition, since its `<`
can come neither from a segment text nor from a complete pair). -/
theorem preview_truncated_before_highlight (note : Note) (q : String)
    (hlen : 200 < note.content.length) :
    cardHighlightedContent note q =
        highlightText (⟨note.content.data.take 200⟩ ++ "...") q ∧
    (q ≠ "" →
      ciOccurs q.data (escapeHtml (⟨note.content.data.take 200⟩ ++ "...")).data = false →
      cardHighlightedContent note q = escapeHtml (⟨note.content.data.take 200⟩ ++ "...") ∧
      containsSub (cardHighlightedContent note q).data openTag = false) ∧
    (∃ chunks, (cardHighlightedContent note q).data = renderChunks chunks ∧
      ∀ p ∈ chunks, ∀ ch ∈ p.2, ch ≠ '<' ∧ ch ≠ '>') := by
  have hprev : previewContent note.content = ⟨note.content.data.take 200⟩ ++ "..." := by
    rw [previewContent, if_pos hlen]
  have hcard : cardHighlightedContent note q =
      highlightText (⟨note.content.data.take 200⟩ ++ "...") q := by
    rw [cardHighlightedContent, hprev]
  refine ⟨hcard, ?_, ?_⟩
  · intro hq hocc
    have h2 : cardHighlightedContent note q =
        escapeHtml (⟨note.content.data.take 200⟩ ++ "...") := by
      rw [hcard, highlightText_of_ne _ _ hq, hlScan_of_not_occurs _ _ hocc]
    refine ⟨h2, ?_⟩
    rw [h2]
    cases hcs : containsSub (escapeHtml (⟨note.content.data.take 200⟩ ++ "...")).data openTag
    · rfl
    · exfalso
      have hinf : openTag <:+: (escapeHtml (⟨note.content.data.take 200⟩ ++ "...")).data :=
        (containsSub_iff _ _).mp hcs
      have hlt : '<' ∈ (escapeHtml (⟨note.content.data.take 200⟩ ++ "...")).data :=
        hinf.subset (by decide)
      exact not_mem_lt_of_wellEscaped (wellEscaped_escapeHtml _) hlt
  · by_cases hq : q = ""
    · subst hq
      refine ⟨[(false, (escapeHtml (previewContent note.content)).data)], ?_, ?_⟩
      · show (escapeHtml (previewContent note.content)).data = _
        simp [renderChunks]
      · intro p hp ch hch
        have hp2 : p = (false, (escapeHtml (previewContent note.content)).data) :=
          List.mem_singleton.mp hp
        subst hp2
        have hin : ch ∈ (escapeHtml (previewContent note.content)).data := hch
        constructor
        · intro he
          subst he
          exact not_mem_lt_of_wellEscaped (wellEscaped_escapeHtml _) hin
        · intro he
          subst he
          exact not_mem_gt_of_wellEscaped (wellEscaped_escapeHtml _) hin
    · obtain ⟨chunks, hch, hmem⟩ :=
        hlScan_chunks q.data (escapeHtml (previewContent note.content)).data
      refine ⟨chunks, ?_, ?_⟩
      · rw [cardHighlightedContent, highlightText_of_ne _ _ hq]
        exact hch
      · intro p hp ch hchm
        have hin : ch ∈ (escapeHtml (previewContent note.content)).data := hmem p hp ch hchm
        constructor
        · intro he
          subst he
          exact not_mem_lt_of_wellEscaped (wellEscaped_escapeHtml _) hin
        · intro he
          subst he
          exact not_mem_gt_of_wellEscaped (wellEscaped_escapeHtml _) hin

set_option maxRecDepth 20000 in
/-- Witness for C6: a 252-character content whose only match starts at
position 250; the preview is the escaped 200-character truncation with no
highlight marker. -/
theorem preview_truncated_before_highlight_witness :
    (200 < longNote.content.length ∧ ("zq" : String) ≠ "" ∧
      ciOccurs "zq".data (escapeHtml (⟨longNote.content.data.take 200⟩ ++ "...")).data = false) ∧
    cardHighlightedContent longNote "zq" = escapeHtml (⟨longNote.content.data.take 200⟩ ++ "...") ∧
    containsSub (cardHighlightedContent longNote "zq").data openTag = false :=
  ⟨⟨by decide, by decide, by decide⟩,
    (preview_truncated_before_highlight longNote "zq" (by decide)).2.1 (by decide) (by decide)⟩

/-- C8: when all case-folded titles are pairwise distinct,
`sortNotes "titleAsc"` reversed is exactly `sortNotes "titleDesc"`. -/
theorem titleAsc_reverse_eq_titleDesc (notes : List Note)
    (hdist : (notes.map fun n => jsToLowerCase n.title).Pairwise (· ≠ ·)) :
    (sortNotes "titleAsc" notes).reverse = sortNotes "titleDesc" notes := by
  rw [sortNotes_titleAsc, sortNotes_titleDesc]
  have hne : notes.Pairwise (fun a b => jsToLowerCase a.title ≠ jsToLowerCase b.title) :=
    List.pairwise_map.mp hdist
  have hasc := List.sorted_mergeSort titleAscLe_trans titleAscLe_total notes
  have hdesc := List.sorted_mergeSort titleDescLe_trans titleDescLe_total notes
  have hperm_asc : List.Perm (notes.mergeSort titleAscLe) notes := List.mergeSort_perm notes _
  have hperm_desc : List.Perm (notes.mergeSort titleDescLe) notes := List.mergeSort_perm notes _
  have hne_asc : (notes.mergeSort titleAscLe).Pairwise
      (fun a b => jsToLowerCase a.title ≠ jsToLowerCase b.title) :=
    (hperm_asc.pairwise_iff (fun h => h.symm)).mpr hne
  have hne_desc : (notes.mergeSort titleDescLe).Pairwise
      (fun a b => jsToLowerCase a.title ≠ jsToLowerCase b.title) :=
    (hperm_desc.pairwise_iff (fun h => h.symm)).mpr hne
  have hstrict_desc : (notes.mergeSort titleDescLe).Pairwise
      (fun a b => jsToLowerCase b.title < jsToLowerCase a.title) :=
    (hdesc.and hne_desc).imp
      (fun hab => lt_of_le_of_ne (of_decide_eq_true hab.1) (Ne.symm hab.2))
  have hstrict_revasc : (notes.mergeSort titleAscLe).reverse.Pairwise
      (fun a b => jsToLowerCase b.title < jsToLowerCase a.title) := by
    rw [List.pairwise_reverse]
    exact (hasc.and hne_asc).imp
      (fun hab => lt_of_le_of_ne (of_decide_eq_true hab.1) hab.2)
  have hperm : List.Perm (notes.mergeSort titleAscLe).reverse (notes.mergeSort titleDescLe) :=
    ((List.reverse_perm _).trans hperm_asc).trans hperm_desc.symm
  haveI : IsAntisymm Note (fun a b => jsToLowerCase b.title < jsToLowerCase a.title) :=
    ⟨fun a b hab hba => absurd (lt_trans hab hba) (lt_irrefl _)⟩
  exact List.eq_of_perm_of_sorted hperm hstrict_revasc hstrict_desc

/-- Witness for C8 on three notes with pairwise distinct folded titles. -/
theorem titleAsc_reverse_eq_titleDesc_witness :
    (distinctTitleNotes.map fun n => jsToLowerCase n.title).Pairwise (· ≠ ·) ∧
    (sortNotes "titleAsc" distinctTitleNotes).reverse =
      sortNotes "titleDesc" distinctTitleNotes :=
  ⟨by decide, titleAsc_reverse_eq_titleDesc distinctTitleNotes (by decide)⟩

/-- C9: neither sorting nor the filter-and-sort pipeline mutates the
caller's array: after either call the source reference still holds the
same notes in the same order, the returned reference is freshly
allocated (its index is past every pre-existing reference), and its
contents are the derived sequence computed by the pure model. -/
theorem engine_no_mutation (h : Heap) (r : Nat) (q mode : String)
    (hr : r < h.arrays.length) :
    (sortNotesST h r mode).1.read r = h.read r ∧
    h.arrays.length ≤ (sortNotesST h r mode).2 ∧
    (sortNotesST h r mode).1.read (sortNotesST h r mode).2 = sortNotes mode (h.read r) ∧
    (getFilteredNotesST h r q mode).1.read r = h.read r ∧
    h.arrays.length ≤ (getFilteredNotesST h r q mode).2 ∧
    (getFilteredNotesST h r q mode).1.read (getFilteredNotesST h r q mode).2 =
      getFilteredNotes mode q (h.read r) := by
  refine ⟨sortNotesST_frame h r mode hr, ?_, sortNotesST_result h r mode,
    getFilteredNotesST_frame h r q mode hr, getFilteredNotesST_ref h r q mode,
    getFilteredNotesST_result h r q mode⟩
  rw [sortNotesST_ref]

/-- Witness for C9 on a concrete two-note heap. -/
theorem engine_no_mutation_witness :
    0 < heap0.arrays.length ∧
    (sortNotesST heap0 0 "dateDesc").1.read 0 = heap0.read 0 ∧
    (getFilteredNotesST heap0 0 "a" "dateDesc").1.read 0 = heap0.read 0 :=
  ⟨by decide,
    (engine_no_mutation heap0 0 "a" "dateDesc" (by decide)).1,
    (engine_no_mutation heap0 0 "a" "dateDesc" (by decide)).2.2.2.1⟩

end SmartNotes
